import Mathlib

/-!
Verification development for the "blind story" party-game engine.

The TypeScript engine is shallowly embedded: each engine operation is a pure
Lean function from the loaded room snapshot (an `Option Room`, `none` meaning
the store has no room under the code) to its result.  The ambient randomness
of the JavaScript shuffle is made explicit: functions that shuffle receive the
shuffled list as a parameter, and theorems quantify over all permutations.
-/

namespace BldSty

/-- The four fixed question slots (`QUESTIONS` in the source; the `where`
slot is written `whereQ` because `where` is a Lean keyword). -/
inductive QuestionType
  | who
  | withWhom
  | whereQ
  | how
deriving DecidableEq, Repr

/-- Game phase of a room. -/
inductive GamePhase
  | lobby
  | playing
  | reveal
deriving DecidableEq, Repr

/-- A player record, after `src` `Player` type: optional fields are `Option`. -/
structure Player where
  id : String
  name : String
  isHost : Bool
  isReady : Bool
  assignedQuestion : Option QuestionType := none
  hasAnswered : Bool := false
  previousQuestion : Option QuestionType := none
deriving DecidableEq, Repr

/-- One stored answer: `{playerId, answer}`. -/
structure AnswerEntry where
  playerId : String
  answer : String
deriving DecidableEq, Repr

/-- The `answers` record of the game state: one optional entry per question
slot (the source uses a partial record keyed by `QuestionType`). -/
structure Answers where
  who : Option AnswerEntry := none
  withWhom : Option AnswerEntry := none
  whereQ : Option AnswerEntry := none
  how : Option AnswerEntry := none
deriving DecidableEq, Repr

/-- Read an answer slot. -/
def Answers.get (a : Answers) : QuestionType → Option AnswerEntry
  | .who => a.who
  | .withWhom => a.withWhom
  | .whereQ => a.whereQ
  | .how => a.how

/-- Write an answer slot. -/
def Answers.set (a : Answers) : QuestionType → AnswerEntry → Answers
  | .who, e => { a with who := some e }
  | .withWhom, e => { a with withWhom := some e }
  | .whereQ, e => { a with whereQ := some e }
  | .how, e => { a with how := some e }

/-- Room settings (`maxPlayers`, `timerSeconds` are the fields the engine
reads or writes). -/
structure RoomSettings where
  maxPlayers : Nat
  timerSeconds : Nat := 0
deriving DecidableEq, Repr

/-- The `gameState` record of a room.  `rotationIndex` is present in the
rotation variant of the engine and is simply carried (initialised to 0 and
never read) by the shuffle variant. -/
structure GameStateR where
  phase : GamePhase
  currentRound : Nat
  answers : Answers
  currentTurnIndex : Nat
  questionOrder : List QuestionType
  rotationIndex : Nat := 0
deriving DecidableEq, Repr

/-- A room snapshot, the unit of persistence. -/
structure Room where
  code : String
  hostId : String
  players : List Player
  settings : RoomSettings
  gameState : GameStateR
  createdAt : Nat
deriving DecidableEq, Repr

/-- The fixed question list `QUESTIONS = ['who', 'withWhom', 'where', 'how']`. -/
def QUESTIONS : List QuestionType := [.who, .withWhom, .whereQ, .how]

/-- The embedding of JavaScript `String.prototype.trim`: drop whitespace from
both ends.  (Defined over the character list so that it is kernel-reducible.) -/
def jsTrim (s : String) : String :=
  String.mk (((s.data.dropWhile Char.isWhitespace).reverse.dropWhile
    Char.isWhitespace).reverse)

/-- The embedding of JavaScript `String.prototype.toLowerCase`. -/
def jsToLower (s : String) : String :=
  String.mk (s.data.map Char.toLower)

/-- Result record of `validateAnswer`. -/
structure ValidationResult where
  isValid : Bool
  cleanedText : String
  error : Option String := none
deriving DecidableEq, Repr

/-- `validateAnswer` from `src/lib/profanity-filter.ts` (lines 4-29): reject
empty / whitespace-only, then reject raw length over 100, else accept with
the trimmed text. -/
def validateAnswer (text : String) : ValidationResult :=
  if text = "" || (jsTrim text).length = 0 then
    { isValid := false, cleanedText := "", error := some "Answer cannot be empty" }
  else if 100 < text.length then
    { isValid := false, cleanedText := text,
      error := some "Answer is too long (max 100 characters)" }
  else
    { isValid := true, cleanedText := jsTrim text }

/-- The word list of the simple profanity filter (`badWords` in
`src/unnamed/part_010`). -/
def badWords : List String :=
  ["fuck", "shit", "ass", "bitch", "damn", "hell", "crap"]

/-- Whether `sub` occurs as a contiguous run inside `l`. -/
def listIsInfixOf (sub : List Char) : List Char → Bool
  | [] => sub.isEmpty
  | c :: cs => sub.isPrefixOf (c :: cs) || listIsInfixOf sub cs

/-- Substring check, the embedding of JavaScript `String.prototype.includes`. -/
def strIncludes (s sub : String) : Bool :=
  listIsInfixOf sub.toList s.toList

/-- `containsProfanity` from `src/unnamed/part_010`: some bad word occurs in
the lowercased text. -/
def containsProfanity (text : String) : Bool :=
  badWords.any (fun w => strIncludes (jsToLower text) w)

/-- Case-insensitive character comparison, for the `gi` regex flag. -/
def lowerEq (a b : Char) : Bool := a.toLower = b.toLower

/-- Whether the pattern `w` is a case-insensitive prefix of the text. -/
def isPrefixCI : List Char → List Char → Bool
  | [], _ => true
  | _ :: _, [] => false
  | a :: as, b :: bs => lowerEq a b && isPrefixCI as bs

/-- Left-to-right, non-overlapping, case-insensitive replacement of the word
`w` by a run of asterisks of the same length — the embedding of
`text.replace(new RegExp(word, 'gi'), '*'.repeat(word.length))`. -/
def replaceAllCI (w : List Char) : List Char → List Char
  | [] => []
  | c :: cs =>
    if w ≠ [] && isPrefixCI w (c :: cs) then
      List.replicate w.length '*' ++ replaceAllCI w (List.drop (w.length - 1) cs)
    else
      c :: replaceAllCI w cs
termination_by cs => cs.length
decreasing_by
  · simp only [List.length_drop, List.length_cons]
    omega
  · simp

/-- `cleanText` from `src/unnamed/part_010`: star out every bad word. -/
def cleanText (text : String) : String :=
  badWords.foldl (fun acc w => String.mk (replaceAllCI w.toList acc.toList)) text

/-- `validateAnswer` with moderation flag, from `src/unnamed/part_010`. -/
def validateAnswerMod (text : String) (moderationEnabled : Bool) : ValidationResult :=
  if text = "" || (jsTrim text).length = 0 then
    { isValid := false, cleanedText := "", error := some "Answer cannot be empty" }
  else if 100 < text.length then
    { isValid := false, cleanedText := text,
      error := some "Answer is too long (max 100 characters)" }
  else if moderationEnabled && containsProfanity text then
    { isValid := false, cleanedText := cleanText text,
      error := some "Please keep it friendly!" }
  else
    { isValid := true, cleanedText := jsTrim text }

/-- `config.moderation.maxAnswerLength` from `src/unnamed/part_009`: the
configured maximum answer length under the moderation policy. -/
def moderationMaxAnswerLength : Nat := 200

/-- `ContentModerator.isSafe` from `src/lib/moderation.ts`, with the
`bad-words` third-party filter abstracted as a parameter `isProfane`. -/
def moderatorIsSafe (enabled profanityFilterEnabled : Bool)
    (isProfane : String → Bool) (text : String) : Bool :=
  if !enabled then true
  else if text = "" || jsTrim text = "" then false
  else if moderationMaxAnswerLength < text.length then false
  else if profanityFilterEnabled && isProfane text then false
  else true

/-- The fresh room built by `createRoom` (`src/lib/game-engine.ts` lines
23-43) once a unique code has been generated: a single host player and a
lobby game state. -/
def createRoomStruct (roomCode hostId hostName : String)
    (settings : RoomSettings) (createdAt : Nat) : Room :=
  { code := roomCode
    hostId := hostId
    players := [{ id := hostId, name := hostName, isHost := true, isReady := false }]
    settings := settings
    gameState :=
      { phase := .lobby, currentRound := 0, answers := {},
        currentTurnIndex := 0, questionOrder := [], rotationIndex := 0 }
    createdAt := createdAt }

/-- Result record of `joinRoom`. -/
structure JoinResult where
  success : Bool
  room : Option Room := none
  error : Option String := none
deriving DecidableEq, Repr

/-- `joinRoom` from `src/lib/game-engine.ts` (lines 52-87).  The `stored`
argument is what `getRoom` returned. -/
def joinRoom (stored : Option Room) (playerId playerName : String) : JoinResult :=
  match stored with
  | none => { success := false, error := some "Room not found" }
  | some room =>
    if room.gameState.phase ≠ .lobby then
      { success := false, error := some "Game already in progress" }
    else if room.settings.maxPlayers ≤ room.players.length then
      { success := false, error := some "Room is full" }
    else if room.players.any (fun p => p.name = playerName) then
      { success := false, error := some "Name already taken" }
    else
      let newPlayer : Player :=
        { id := playerId, name := playerName, isHost := false, isReady := false }
      { success := true, room := some { room with players := room.players ++ [newPlayer] } }

/-- The store content after a `joinRoom` call: the room is saved only on the
success path (all failure paths in the source return before mutating). -/
def joinStep (stored : Option Room) (playerId playerName : String) : Option Room :=
  match joinRoom stored playerId playerName with
  | { success := true, room := some r, error := _ } => some r
  | _ => stored

/-- `removePlayer` from `src/lib/game-engine.ts` (lines 92-114): filter the
player out; on host departure promote the head of the remaining list, or
return `null` (here `none`) when nobody remains.  A `none` result means the
room was not saved and the caller should delete it. -/
def removePlayer (stored : Option Room) (playerId : String) : Option Room :=
  match stored with
  | none => none
  | some room =>
    let room := { room with players := room.players.filter (fun p => p.id ≠ playerId) }
    if playerId = room.hostId then
      match room.players with
      | [] => none
      | p :: rest =>
        some { room with hostId := p.id, players := { p with isHost := true } :: rest }
    else
      some room

/-- Update the first player in the list whose `id` matches; the source
mutates the object returned by `Array.prototype.find`, which is exactly the
first match. -/
def updateFirst (players : List Player) (pid : String) (f : Player → Player) : List Player :=
  match players with
  | [] => []
  | p :: rest => if p.id = pid then f p :: rest else p :: updateFirst rest pid f

/-- Result record of `submitAnswer`. -/
structure SubmitResult where
  success : Bool
  room : Option Room := none
  error : Option String := none
  shouldReveal : Option Bool := none
deriving DecidableEq, Repr

/-- `submitAnswer` from `src/lib/game-engine.ts` (lines 209-250, identical in
the rotation variant): phase guard, player/assignment guard, duplicate
guard, validator, then record the answer, mark the player, and move to
`reveal` when all four slots hold answers. -/
def submitAnswer (stored : Option Room) (playerId answer : String) : SubmitResult :=
  match stored with
  | none => { success := false, error := some "Invalid game state" }
  | some room =>
    if room.gameState.phase ≠ .playing then
      { success := false, error := some "Invalid game state" }
    else
      match room.players.find? (fun p => p.id = playerId) with
      | none => { success := false, error := some "Player not found or no question assigned" }
      | some player =>
        match player.assignedQuestion with
        | none => { success := false, error := some "Player not found or no question assigned" }
        | some q =>
          if player.hasAnswered then
            { success := false, error := some "Already answered" }
          else
            let validation := validateAnswer answer
            if !validation.isValid then
              { success := false, error := validation.error }
            else
              let answers := room.gameState.answers.set q
                { playerId := player.id, answer := validation.cleanedText }
              let players := updateFirst room.players playerId
                (fun p => { p with hasAnswered := true })
              let allAnswered := QUESTIONS.all (fun q' => (answers.get q').isSome)
              let phase := if allAnswered then GamePhase.reveal else room.gameState.phase
              let gs := { room.gameState with answers := answers, phase := phase }
              let room := { room with players := players, gameState := gs }
              { success := true, room := some room, shouldReveal := some allAnswered }

/-- The store content after a `submitAnswer` call: saved only on success. -/
def submitStep (stored : Option Room) (playerId answer : String) : Option Room :=
  match submitAnswer stored playerId answer with
  | { success := true, room := some r, error := _, shouldReveal := _ } => some r
  | _ => stored

/-- The reveal payload. -/
structure RevealData where
  who : String
  withWhom : String
  whereQ : String
  how : String
  sentence : String
deriving DecidableEq, Repr

/-- `generateReveal` from `src/lib/game-engine.ts` (lines 255-270), the plain
template variant: `null` when any slot is empty, else the fixed-template
sentence. -/
def generateReveal (room : Room) : Option RevealData :=
  let answers := room.gameState.answers
  match answers.who, answers.withWhom, answers.whereQ, answers.how with
  | some w, some ww, some wh, some h =>
    let who := w.answer
    let withWhom := ww.answer
    let whereA := wh.answer
    let how := h.answer
    let sentence :=
      who ++ " was with " ++ withWhom ++ " at " ++ whereA ++ ", and they did it " ++ how ++ "."
    some { who := who, withWhom := withWhom, whereQ := whereA, how := how, sentence := sentence }
  | _, _, _, _ => none

/-- Lookup in an association list (the embedding of `Map.prototype.get`). -/
def alookup (k : String) : List (String × QuestionType) → Option QuestionType
  | [] => none
  | (k', v) :: rest => if k' = k then some v else alookup k rest

/-- Insert-or-update in an association list (the embedding of
`Map.prototype.set`: an existing key keeps its position, a new key is
appended). -/
def assocSet (m : List (String × QuestionType)) (k : String) (v : QuestionType) :
    List (String × QuestionType) :=
  match m with
  | [] => [(k, v)]
  | (k', v') :: rest => if k' = k then (k, v) :: rest else (k', v') :: assocSet rest k v

/-- One step of building the `previousAssignments` map. -/
def prevStep (m : List (String × QuestionType)) (p : Player) :
    List (String × QuestionType) :=
  match p.previousQuestion with
  | some q => assocSet m p.id q
  | none => m

/-- The `previousAssignments` map: for each player with a `previousQuestion`,
bind their id to it (`players.forEach` in the source). -/
def buildPrevMap (players : List Player) : List (String × QuestionType) :=
  players.foldl prevStep []

/-- One greedy pick for a player: the first question neither used nor equal
to the player's previous one, else (fallback) the first unused question,
else nothing. -/
def greedyPick (used : List QuestionType) (prev : Option QuestionType) :
    Option QuestionType :=
  match QUESTIONS.find? (fun q => ¬ q ∈ used ∧ some q ≠ prev) with
  | some q => some q
  | none => QUESTIONS.find? (fun q => ¬ q ∈ used)

/-- The greedy assignment loop over the shuffled players (the `for (const
player of shuffledPlayers)` loop): accumulates the assignment map and the
set of used questions, stopping once all 4 questions are used. -/
def greedyLoop (prevMap : List (String × QuestionType)) :
    List Player → List (String × QuestionType) → List QuestionType →
    List (String × QuestionType) × List QuestionType
  | [], asg, used => (asg, used)
  | p :: rest, asg, used =>
    match greedyPick used (alookup p.id prevMap) with
    | some q =>
      let asg := assocSet asg p.id q
      let used := used ++ [q]
      if 4 ≤ used.length then (asg, used) else greedyLoop prevMap rest asg used
    | none =>
      if 4 ≤ used.length then (asg, used) else greedyLoop prevMap rest asg used

/-- Apply the computed assignments to every player (the final `for (const
player of players)` loop): save the current question as previous, install the
new one (or `undefined`), and clear `hasAnswered`. -/
def applyAssignments (players : List Player) (asg : List (String × QuestionType)) :
    List Player :=
  players.map (fun p =>
    { p with previousQuestion := p.assignedQuestion,
             assignedQuestion := alookup p.id asg,
             hasAnswered := false })

/-- `assignQuestionsWithShuffle` from `src/lib/game-engine.ts` (lines
119-180).  The ambient `sort(() => Math.random() - 0.5)` is replaced by the
explicit `shuffled` argument; theorems quantify over permutations. -/
def assignQuestionsWithShuffle (players shuffled : List Player) : List Player :=
  applyAssignments players (greedyLoop (buildPrevMap players) shuffled [] []).1

/-- The players selected for this round by the rotation variant
(`src/lib/profanity-filter.ts` lines 151-167): four consecutive positions
starting at `4 * (rotationIndex % ceil(n/4))`, wrapping around modulo `n`. -/
def selectRotation (players : List Player) (rotationIndex : Nat) : List Player :=
  let total := players.length
  let numGroups := (total + 3) / 4
  let currentGroup := rotationIndex % numGroups
  let startIndex := currentGroup * 4
  (List.range (min 4 total)).filterMap (fun i => players.get? ((startIndex + i) % total))

/-- `assignQuestionsWithRotation` from `src/lib/profanity-filter.ts` (lines
150-229): select the active four, build their previous-question map, run the
same greedy loop over a shuffle of them, and apply to all players. -/
def assignQuestionsWithRotation (players : List Player) (rotationIndex : Nat)
    (shuffled : List Player) : List Player :=
  applyAssignments players
    (greedyLoop (buildPrevMap (selectRotation players rotationIndex)) shuffled [] []).1

/-- Result of `startGame` / `startNewRound`: `nullRes` for the `null` return,
`thrown` for the thrown error. -/
inductive EngineResult
  | nullRes
  | thrown (msg : String)
  | okRes (room : Room)
deriving DecidableEq, Repr

/-- `startGame` from `src/lib/game-engine.ts` (lines 185-204), the shuffle
variant. -/
def startGame (stored : Option Room) (shuffled : List Player) : EngineResult :=
  match stored with
  | none => .nullRes
  | some room =>
    if room.gameState.phase ≠ .lobby then .nullRes
    else if room.players.length < 4 then .thrown "Need at least 4 players to start"
    else
      let players := assignQuestionsWithShuffle room.players shuffled
      let gs := { room.gameState with
                  phase := GamePhase.playing,
                  currentRound := room.gameState.currentRound + 1,
                  currentTurnIndex := 0, answers := {}, questionOrder := QUESTIONS }
      .okRes { room with players := players, gameState := gs }

/-- `startNewRound` from `src/lib/game-engine.ts` (lines 275-289), the
shuffle variant. -/
def startNewRound (stored : Option Room) (shuffled : List Player) : EngineResult :=
  match stored with
  | none => .nullRes
  | some room =>
    if room.gameState.phase ≠ .reveal then .nullRes
    else
      let players := assignQuestionsWithShuffle room.players shuffled
      let gs := { room.gameState with
                  phase := GamePhase.playing,
                  currentRound := room.gameState.currentRound + 1,
                  currentTurnIndex := 0, answers := {} }
      .okRes { room with players := players, gameState := gs }

/-- `startGame` from `src/lib/profanity-filter.ts` (lines 234-255), the
rotation variant: also sets `questionOrder` and increments `rotationIndex`. -/
def startGameRot (stored : Option Room) (shuffled : List Player) : EngineResult :=
  match stored with
  | none => .nullRes
  | some room =>
    if room.gameState.phase ≠ .lobby then .nullRes
    else if room.players.length < 4 then .thrown "Need at least 4 players to start"
    else
      let players := assignQuestionsWithRotation room.players room.gameState.rotationIndex shuffled
      let gs := { room.gameState with
                  phase := GamePhase.playing,
                  currentRound := room.gameState.currentRound + 1,
                  currentTurnIndex := 0, answers := {}, questionOrder := QUESTIONS,
                  rotationIndex := room.gameState.rotationIndex + 1 }
      .okRes { room with players := players, gameState := gs }

/-- `startNewRound` from `src/lib/profanity-filter.ts` (lines 401-417), the
rotation variant. -/
def startNewRoundRot (stored : Option Room) (shuffled : List Player) : EngineResult :=
  match stored with
  | none => .nullRes
  | some room =>
    if room.gameState.phase ≠ .reveal then .nullRes
    else
      let players := assignQuestionsWithRotation room.players room.gameState.rotationIndex shuffled
      let gs := { room.gameState with
                  phase := GamePhase.playing,
                  currentRound := room.gameState.currentRound + 1,
                  currentTurnIndex := 0, answers := {},
                  rotationIndex := room.gameState.rotationIndex + 1 }
      .okRes { room with players := players, gameState := gs }

/-- Partial settings override accepted by `resetToLobby`. -/
structure SettingsPatch where
  maxPlayers : Option Nat := none
  timerSeconds : Option Nat := none
deriving DecidableEq, Repr

/-- `resetToLobby` from `src/lib/profanity-filter.ts` (lines 422-456): valid
from any phase; merges the optional settings patch, resets the game state to
an empty round-0 lobby, and clears every player's per-round state. -/
def resetToLobby (stored : Option Room) (newSettings : Option SettingsPatch) :
    Option Room :=
  match stored with
  | none => none
  | some room =>
    let settings :=
      match newSettings with
      | none => room.settings
      | some patch =>
        { maxPlayers := patch.maxPlayers.getD room.settings.maxPlayers,
          timerSeconds := patch.timerSeconds.getD room.settings.timerSeconds }
    let players := room.players.map (fun p =>
      { p with assignedQuestion := none, hasAnswered := false,
               previousQuestion := none, isReady := false })
    let gs := { room.gameState with
                phase := GamePhase.lobby, currentRound := 0,
                answers := {}, currentTurnIndex := 0, rotationIndex := 0 }
    some { room with settings := settings, players := players, gameState := gs }

/-- The uncapped code-generation loop of `createRoom`
(`src/lib/game-engine.ts` lines 16-21): `do { code = generateRoomCode() }
while (await roomExists(code))`.  `draws n` is the `n`-th code produced by
the random generator and `existsFn` is the store's `exists` check; the
`fuel` argument counts how many iterations we are willing to observe —
`none` means the loop is still running after `fuel` draws. -/
def genLoopFuel (existsFn : String → Bool) (draws : Nat → String) :
    Nat → Nat → Option String
  | _, 0 => none
  | start, fuel + 1 =>
    if existsFn (draws start) then genLoopFuel existsFn draws (start + 1) fuel
    else some (draws start)

/-- The capped generator `GameState.generateRoomCode` of
`src/unnamed/part_008` (lines 20-29): each iteration draws a code, bumps
`attempts`, throws once `attempts > 10`, and otherwise exits when the code is
free.  The outer `Option` is only the structural fuel (11 iterations always
suffice): `none` would mean the model ran out of fuel. -/
def genCappedGo (existsFn : String → Bool) (draws : Nat → String) :
    Nat → Nat → Option (Except String String)
  | _, 0 => none
  | attempts, fuel + 1 =>
    let code := draws attempts
    let attempts := attempts + 1
    if 10 < attempts then some (.error "Failed to generate unique room code")
    else if existsFn code then genCappedGo existsFn draws attempts fuel
    else some (.ok code)

/-- `GameState.generateRoomCode`, run with enough fuel. -/
def generateRoomCodeCapped (existsFn : String → Bool) (draws : Nat → String) :
    Option (Except String String) :=
  genCappedGo existsFn draws 0 11

/-! ## State-machine scaffolding and specification-side definitions -/

/-- One membership operation on a room, for the host-invariant claim. -/
inductive Op
  | join (pid name : String)
  | remove (pid : String)
deriving DecidableEq, Repr

/-- Apply one membership operation to the store content (a `none` state means
the room has been deleted). -/
def applyOp (s : Option Room) : Op → Option Room
  | .join pid name => joinStep s pid name
  | .remove pid => removePlayer s pid

/-- Run a sequence of membership operations. -/
def runOps (s : Option Room) (ops : List Op) : Option Room := ops.foldl applyOp s

/-- Run a sequence of join requests, counting the successful ones. -/
def runJoins : Option Room → List (String × String) → Option Room × Nat
  | s, [] => (s, 0)
  | s, (pid, name) :: rest =>
    match joinRoom s pid name with
    | { success := true, room := some r, error := _ } =>
      let out := runJoins (some r) rest
      (out.1, out.2 + 1)
    | _ => runJoins s rest

/-- The host invariant: exactly one player has `isHost = true` and that
player's id is the room's `hostId`. -/
def hostInvariant (room : Room) : Bool :=
  match room.players.filter (fun p => p.isHost) with
  | [h] => h.id = room.hostId
  | _ => false

/-- The phase edges permitted by the specification's state-machine invariant
(`lobby → playing → reveal → (playing | lobby)`), a self-loop counting as no
transition. -/
def allowedPhaseEdge (p q : GamePhase) : Prop :=
  p = q ∨ (p = .lobby ∧ q = .playing) ∨ (p = .playing ∧ q = .reveal) ∨
    (p = .reveal ∧ q = .playing) ∨ (p = .reveal ∧ q = .lobby)

instance (p q : GamePhase) : Decidable (allowedPhaseEdge p q) := by
  unfold allowedPhaseEdge; infer_instance

/-- Spec side, for the rotation claim: the cohort a position belongs to when
players are partitioned into disjoint cohorts of 4 by position. -/
def specCohortOf (i : Nat) : Nat := i / 4

/-- Spec side: the active cohort index, `rotationIndex mod cohortCount`. -/
def specActiveCohort (n rotationIndex : Nat) : Nat := rotationIndex % ((n + 3) / 4)

/-- The list positions that the rotation code actually selects this round:
four consecutive positions from `4 * (rotationIndex mod ceil(n/4))`, wrapping
around modulo `n`. -/
def activeIdxs (n rotationIndex : Nat) : List Nat :=
  (List.range (min 4 n)).map (fun i => ((rotationIndex % ((n + 3) / 4)) * 4 + i) % n)

/-! ## Concrete fixtures for witnesses and counterexamples -/

/-- Default settings used by the fixtures. -/
def sampleSettings : RoomSettings := { maxPlayers := 8 }

/-- A lobby-phase game state. -/
def lobbyGS : GameStateR :=
  { phase := .lobby, currentRound := 0, answers := {},
    currentTurnIndex := 0, questionOrder := [], rotationIndex := 0 }

/-- Shorthand for a fresh (non-host) player. -/
def mkP (id name : String) : Player :=
  { id := id, name := name, isHost := false, isReady := false }

/-- Shorthand for a player holding an assigned question. -/
def mkQP (id name : String) (q : QuestionType) (answered : Bool) : Player :=
  { id := id, name := name, isHost := false, isReady := false,
    assignedQuestion := some q, hasAnswered := answered }

/-- A playing-phase room where three of the four questions are already
answered and player `d` holds the last one. -/
def lastAnswerRoom : Room :=
  { code := "ABCDEF", hostId := "a",
    players :=
      [{ mkQP "a" "Amy" .who true with isHost := true },
       mkQP "b" "Bo" .withWhom true,
       mkQP "c" "Cy" .whereQ true,
       mkQP "d" "Dee" .how false],
    settings := sampleSettings,
    gameState :=
      { phase := .playing, currentRound := 1,
        answers :=
          { who := some { playerId := "a", answer := "Alice" },
            withWhom := some { playerId := "b", answer := "a dragon" },
            whereQ := some { playerId := "c", answer := "the moon" } },
        currentTurnIndex := 0, questionOrder := QUESTIONS, rotationIndex := 0 },
    createdAt := 0 }

/-- A playing-phase room with no answers submitted yet. -/
def freshPlayRoom : Room :=
  { code := "ABCDEF", hostId := "a",
    players :=
      [{ mkQP "a" "Amy" .who false with isHost := true },
       mkQP "b" "Bo" .withWhom false,
       mkQP "c" "Cy" .whereQ false,
       mkQP "d" "Dee" .how false],
    settings := sampleSettings,
    gameState :=
      { phase := .playing, currentRound := 1, answers := {},
        currentTurnIndex := 0, questionOrder := QUESTIONS, rotationIndex := 0 },
    createdAt := 0 }

/-- The first player of `freshPlayRoom`. -/
def freshPlayRoomP : Player := { mkQP "a" "Amy" .who false with isHost := true }

/-- A reveal-phase room (all four answers in), used for `generateReveal` and
for the reset witness. -/
def revealRoom : Room :=
  { lastAnswerRoom with
    gameState :=
      { lastAnswerRoom.gameState with
        phase := .reveal,
        answers :=
          { who := some { playerId := "a", answer := "Alice" },
            withWhom := some { playerId := "b", answer := "a dragon" },
            whereQ := some { playerId := "c", answer := "the moon" },
            how := some { playerId := "d", answer := "accidentally" } } } }

/-- The room `resetToLobby` produces from `revealRoom`. -/
def revealRoomReset : Room := (resetToLobby (some revealRoom) none).getD revealRoom

/-- Four fresh players (round 1: nobody has an assigned or previous
question). -/
def c4Players : List Player :=
  [mkP "a" "Amy", mkP "b" "Bo", mkP "c" "Cy", mkP "d" "Dee"]

/-- The player list after round 1 assigns questions to `c4Players` with the
identity shuffle. -/
def c4Round1 : List Player := assignQuestionsWithShuffle c4Players c4Players

/-- Three players carrying previous-round questions, for the repeat-avoidance
witness. -/
def threePrev : List Player :=
  [{ mkP "a" "Amy" with previousQuestion := some .who },
   { mkP "b" "Bo" with previousQuestion := some .withWhom },
   { mkP "c" "Cy" with previousQuestion := some .whereQ }]

/-- A reversed shuffle of `threePrev`. -/
def threePrevRev : List Player := threePrev.reverse

/-- The first player of `threePrev`. -/
def threePrevHead : Player := { mkP "a" "Amy" with previousQuestion := some .who }

/-- Five fresh players, for the rotation counterexample. -/
def c5Players : List Player :=
  [mkP "a" "Amy", mkP "b" "Bo", mkP "c" "Cy", mkP "d" "Dee", mkP "e" "Eve"]

/-- The players the rotation code selects for `c5Players` at rotation index
1 (positions 4, 0, 1, 2 — wrapping around). -/
def c5Shuffled : List Player := selectRotation c5Players 1

/-- Eight fresh players, for the rotation witness (cohorts are disjoint when
4 divides the player count). -/
def eightPlayers : List Player :=
  [mkP "a" "Amy", mkP "b" "Bo", mkP "c" "Cy", mkP "d" "Dee",
   mkP "e" "Eve", mkP "f" "Flo", mkP "g" "Gus", mkP "h" "Hal"]

/-- The players the rotation code selects for `eightPlayers` at rotation index
0 (positions 0-3). -/
def eightShuffled : List Player := selectRotation eightPlayers 0

/-- The room created by `createRoom` for the host-invariant witness. -/
def c1Room : Room := createRoomStruct "ABC123" "a" "Amy" sampleSettings 0

/-- A membership-operation sequence for the host-invariant witness: two
players join, then the host leaves. -/
def c1Ops : List Op := [.join "b" "Bo", .join "c" "Cy", .remove "a"]

/-- The room after running `c1Ops` from `c1Room`. -/
def c1Final : Room := (runOps (some c1Room) c1Ops).getD c1Room

/-- A lobby room with a host and one guest, for join/remove witnesses. -/
def lobbyRoom : Room :=
  { code := "ABC123", hostId := "a",
    players := [{ mkP "a" "Amy" with isHost := true }, mkP "b" "Bo"],
    settings := sampleSettings, gameState := lobbyGS, createdAt := 0 }

/-- The room `removePlayer` produces when the host leaves `lobbyRoom`. -/
def lobbyRoomSansHost : Room := (removePlayer (some lobbyRoom) "a").getD lobbyRoom

/-! ## Helper lemmas -/

/-- A string of length zero is the empty string. -/
theorem string_length_eq_zero {s : String} : s.length = 0 ↔ s = "" := by
  cases s with
  | mk d =>
    cases d with
    | nil => simp
    | cons c cs => simp [String.length, String.ext_iff]

/-- On a store where every code is taken, the uncapped `createRoom` loop is
still running after any number of draws. -/
theorem genLoopFuel_allTaken (draws : Nat → String) :
    ∀ fuel start, genLoopFuel (fun _ => true) draws start fuel = none := by
  intro fuel
  induction fuel with
  | zero => intro start; rfl
  | succ n ih => intro start; simpa [genLoopFuel] using ih (start + 1)

/-- The capped generator of `part_008` always terminates within its fuel,
either with the fatal error or with a free code. -/
theorem genCappedGo_total (existsFn : String → Bool) (draws : Nat → String) :
    ∀ fuel attempts, attempts + fuel = 11 → attempts ≤ 10 →
      genCappedGo existsFn draws attempts fuel =
          some (.error "Failed to generate unique room code") ∨
        ∃ c, genCappedGo existsFn draws attempts fuel = some (.ok c) ∧
          existsFn c = false := by
  intro fuel
  induction fuel with
  | zero => intro attempts h h10; omega
  | succ n ih =>
    intro attempts h h10
    rcases Nat.lt_or_ge 10 (attempts + 1) with hl | hl
    · left
      simp [genCappedGo, hl]
    · have h1 : ¬ 10 < attempts + 1 := by omega
      by_cases hex : existsFn (draws attempts)
      · have := ih (attempts + 1) (by omega) (by omega)
        simpa [genCappedGo, h1, hex] using this
      · right
        refine ⟨draws attempts, by simp [genCappedGo, h1, hex], by simpa using hex⟩

/-- `startGame` only produces a room from the lobby phase, and that room is
in the playing phase. -/
theorem startGame_ok_phase {room : Room} {sh : List Player} {r' : Room}
    (h : startGame (some room) sh = .okRes r') :
    room.gameState.phase = .lobby ∧ r'.gameState.phase = .playing := by
  simp only [startGame] at h
  split at h
  · simp_all
  next h1 =>
    split at h
    · simp_all
    next h2 =>
      simp only [EngineResult.okRes.injEq] at h
      subst h
      exact ⟨not_not.mp h1, rfl⟩

/-- Rotation-variant `startGame`: lobby in, playing out, and the rotation
index advances by one. -/
theorem startGameRot_ok {room : Room} {sh : List Player} {r' : Room}
    (h : startGameRot (some room) sh = .okRes r') :
    room.gameState.phase = .lobby ∧ r'.gameState.phase = .playing ∧
      r'.gameState.rotationIndex = room.gameState.rotationIndex + 1 := by
  simp only [startGameRot] at h
  split at h
  · simp_all
  next h1 =>
    split at h
    · simp_all
    next h2 =>
      simp only [EngineResult.okRes.injEq] at h
      subst h
      exact ⟨not_not.mp h1, rfl, rfl⟩

/-- `startNewRound` only produces a room from the reveal phase, and that
room is in the playing phase. -/
theorem startNewRound_ok_phase {room : Room} {sh : List Player} {r' : Room}
    (h : startNewRound (some room) sh = .okRes r') :
    room.gameState.phase = .reveal ∧ r'.gameState.phase = .playing := by
  simp only [startNewRound] at h
  split at h
  · simp_all
  next h1 =>
    simp only [EngineResult.okRes.injEq] at h
    subst h
    exact ⟨not_not.mp h1, rfl⟩

/-- Rotation-variant `startNewRound`: reveal in, playing out, rotation index
advances by one. -/
theorem startNewRoundRot_ok {room : Room} {sh : List Player} {r' : Room}
    (h : startNewRoundRot (some room) sh = .okRes r') :
    room.gameState.phase = .reveal ∧ r'.gameState.phase = .playing ∧
      r'.gameState.rotationIndex = room.gameState.rotationIndex + 1 := by
  simp only [startNewRoundRot] at h
  split at h
  · simp_all
  next h1 =>
    simp only [EngineResult.okRes.injEq] at h
    subst h
    exact ⟨not_not.mp h1, rfl, rfl⟩

/-- `submitAnswer` only returns a room from the playing phase, and that room
is in the playing or reveal phase. -/
theorem submitAnswer_room_phase {room : Room} {pid ans : String} {r' : Room}
    (h : (submitAnswer (some room) pid ans).room = some r') :
    room.gameState.phase = .playing ∧
      (r'.gameState.phase = .playing ∨ r'.gameState.phase = .reveal) := by
  simp only [submitAnswer] at h
  split at h
  · simp_all
  next hp =>
    split at h
    · simp_all
    next player hfind =>
      split at h
      · simp_all
      next q hq =>
        split at h
        · simp_all
        next hans =>
          rcases hv : (validateAnswer ans).isValid with _ | _
          · simp [hv] at h
          · simp only [hv, Bool.not_true, Bool.false_eq_true, if_false,
              Option.some.injEq] at h
            subst h
            refine ⟨not_not.mp hp, ?_⟩
            by_cases ha : (QUESTIONS.all fun q' =>
                ((room.gameState.answers.set q
                  { playerId := player.id,
                    answer := (validateAnswer ans).cleanedText }).get q').isSome) = true
            · right
              simp [ha]
            · left
              simp only [ha, if_false]
              exact not_not.mp hp

/-- `resetToLobby` always lands in the lobby phase. -/
theorem resetToLobby_some_phase {room : Room} {patch : Option SettingsPatch} {r' : Room}
    (h : resetToLobby (some room) patch = some r') :
    r'.gameState.phase = .lobby := by
  simp only [resetToLobby, Option.some.injEq] at h
  subst h
  rfl

/-! ## Claims -/

/-- Claim C3 (amended): `startGame`, `submitAnswer` and `startNewRound` (in
both engine variants) move the phase only along the specified edges
(`lobby → playing`, `playing → reveal`, `reveal → playing`,
`reveal → lobby`) — but `resetToLobby` is valid from any phase and may
additionally perform the `playing → lobby` transition. -/
theorem c3_phase_transitions :
    (∀ (room : Room) (sh : List Player) (r' : Room),
      startGame (some room) sh = .okRes r' →
      allowedPhaseEdge room.gameState.phase r'.gameState.phase) ∧
    (∀ (room : Room) (sh : List Player) (r' : Room),
      startGameRot (some room) sh = .okRes r' →
      allowedPhaseEdge room.gameState.phase r'.gameState.phase) ∧
    (∀ (room : Room) (pid ans : String) (r' : Room),
      (submitAnswer (some room) pid ans).room = some r' →
      allowedPhaseEdge room.gameState.phase r'.gameState.phase) ∧
    (∀ (room : Room) (sh : List Player) (r' : Room),
      startNewRound (some room) sh = .okRes r' →
      allowedPhaseEdge room.gameState.phase r'.gameState.phase) ∧
    (∀ (room : Room) (sh : List Player) (r' : Room),
      startNewRoundRot (some room) sh = .okRes r' →
      allowedPhaseEdge room.gameState.phase r'.gameState.phase) ∧
    (∀ (room : Room) (patch : Option SettingsPatch) (r' : Room),
      resetToLobby (some room) patch = some r' →
      allowedPhaseEdge room.gameState.phase r'.gameState.phase ∨
        (room.gameState.phase = .playing ∧ r'.gameState.phase = .lobby)) := by
  refine ⟨?_, ?_, ?_, ?_, ?_, ?_⟩
  · intro room sh r' h
    obtain ⟨h1, h2⟩ := startGame_ok_phase h
    rw [h1, h2]; decide
  · intro room sh r' h
    obtain ⟨h1, h2, _⟩ := startGameRot_ok h
    rw [h1, h2]; decide
  · intro room pid ans r' h
    obtain ⟨h1, h2 | h2⟩ := submitAnswer_room_phase h <;> rw [h1, h2] <;> decide
  · intro room sh r' h
    obtain ⟨h1, h2⟩ := startNewRound_ok_phase h
    rw [h1, h2]; decide
  · intro room sh r' h
    obtain ⟨h1, h2, _⟩ := startNewRoundRot_ok h
    rw [h1, h2]; decide
  · intro room patch r' h
    have h2 := resetToLobby_some_phase h
    rw [h2]
    cases h1 : room.gameState.phase
    · left; decide
    · right; exact ⟨rfl, rfl⟩
    · left; decide

/-- Claim C3, counterexample to the claim as stated: from a playing-phase
room, `resetToLobby` performs the `playing → lobby` transition, which is not
among the permitted edges. -/
theorem c3_counterexample :
    lastAnswerRoom.gameState.phase = GamePhase.playing ∧
    (resetToLobby (some lastAnswerRoom) none).map (fun r => r.gameState.phase) =
      some GamePhase.lobby ∧
    ¬ allowedPhaseEdge GamePhase.playing GamePhase.lobby :=
  ⟨rfl, rfl, by decide⟩

/-- Claim C3, witness: the amended theorem applied to a concrete
reveal-phase room being reset to the lobby. -/
theorem c3_phase_transitions_witness :
    allowedPhaseEdge revealRoom.gameState.phase revealRoomReset.gameState.phase ∨
      (revealRoom.gameState.phase = .playing ∧
        revealRoomReset.gameState.phase = .lobby) :=
  c3_phase_transitions.2.2.2.2.2 revealRoom none revealRoomReset rfl

/-- Claim C8: `generateReveal` returns `none` exactly when one of the four
question slots lacks an answer; on the Alice / a dragon / the moon /
accidentally answers the template variant produces exactly the expected
sentence; mutation-freedom is inherent to the embedding (a pure function of
the room that returns only the reveal payload). -/
theorem c8_generateReveal :
    (∀ room : Room,
      generateReveal room = none ↔
        (room.gameState.answers.who = none ∨ room.gameState.answers.withWhom = none ∨
         room.gameState.answers.whereQ = none ∨ room.gameState.answers.how = none)) ∧
    generateReveal revealRoom =
      some { who := "Alice", withWhom := "a dragon", whereQ := "the moon",
             how := "accidentally",
             sentence := "Alice was with a dragon at the moon, and they did it accidentally." } := by
  constructor
  · intro room
    rcases hw : room.gameState.answers.who with _ | w <;>
    rcases hx : room.gameState.answers.withWhom with _ | x <;>
    rcases hy : room.gameState.answers.whereQ with _ | y <;>
    rcases hz : room.gameState.answers.how with _ | z <;>
    simp [generateReveal, hw, hx, hy, hz]
  · rfl

/-- Claim C9 (amended): the capped generator (`part_008`) terminates for
every store state and draw sequence within its fixed cap, returning either
the fatal error or a code free in the store; the `createRoom` loop of
`src/lib/game-engine.ts`, by contrast, is uncapped — on a store where every
code exists it is still running after any number of attempts. -/
theorem c9_room_code_generation :
    (∀ (existsFn : String → Bool) (draws : Nat → String),
      generateRoomCodeCapped existsFn draws =
          some (.error "Failed to generate unique room code") ∨
        ∃ c, generateRoomCodeCapped existsFn draws = some (.ok c) ∧
          existsFn c = false) ∧
    (∀ (draws : Nat → String) (fuel start : Nat),
      genLoopFuel (fun _ => true) draws start fuel = none) := by
  constructor
  · intro f d
    exact genCappedGo_total f d 11 0 rfl (by omega)
  · intro d fuel start
    exact genLoopFuel_allTaken d fuel start

/-- Claim C9, counterexample to the claim as stated: no retry cap bounds the
`createRoom` generation loop over all store states — on the all-taken store
the loop is still running after `cap` attempts, whatever `cap` is. -/
theorem c9_counterexample :
    ¬ ∃ cap : Nat, ∀ (existsFn : String → Bool) (draws : Nat → String),
        genLoopFuel existsFn draws 0 cap ≠ none := by
  rintro ⟨cap, h⟩
  exact h (fun _ => true) (fun _ => "AAAAAA") (genLoopFuel_allTaken _ cap 0)

/-- Claim C10: the answer validator applies its rules in order — empty or
whitespace-only input is rejected first, then raw length over the configured
maximum (100 for `validateAnswer`; the moderation policy of
`src/lib/moderation.ts` uses 200), and otherwise (when moderation, if
enabled, finds no profanity) the input is accepted with the trimmed text;
the plain validator coincides with the moderation-aware one with the flag
off.  Purity is inherent to the embedding. -/
theorem c10_validateAnswer :
    (∀ text : String, validateAnswer text = validateAnswerMod text false) ∧
    (∀ (text : String) (m : Bool), jsTrim text = "" →
      validateAnswerMod text m =
        { isValid := false, cleanedText := "", error := some "Answer cannot be empty" }) ∧
    (∀ (text : String) (m : Bool), jsTrim text ≠ "" → 100 < text.length →
      validateAnswerMod text m =
        { isValid := false, cleanedText := text,
          error := some "Answer is too long (max 100 characters)" }) ∧
    (∀ (text : String) (m : Bool), jsTrim text ≠ "" → text.length ≤ 100 →
      (m = true → containsProfanity text = false) →
      validateAnswerMod text m = { isValid := true, cleanedText := jsTrim text }) ∧
    (∀ (text : String) (pf : Bool) (isProfane : String → Bool),
      moderationMaxAnswerLength < text.length →
      moderatorIsSafe true pf isProfane text = false) := by
  refine ⟨?_, ?_, ?_, ?_, ?_⟩
  · intro text
    simp [validateAnswer, validateAnswerMod]
  · intro text m h
    have h0 : (jsTrim text).length = 0 := by rw [h]; rfl
    simp [validateAnswerMod, h0]
  · intro text m h h100
    have h0 : ¬ (jsTrim text).length = 0 := fun hc => h (string_length_eq_zero.mp hc)
    have hne : ¬ text = "" := by
      intro hc; subst hc; exact h rfl
    simp [validateAnswerMod, h0, hne, h100]
  · intro text m h hle hprof
    have h0 : ¬ (jsTrim text).length = 0 := fun hc => h (string_length_eq_zero.mp hc)
    have hne : ¬ text = "" := by
      intro hc; subst hc; exact h rfl
    have hlen : ¬ 100 < text.length := by omega
    cases m with
    | false => simp [validateAnswerMod, h0, hne, hlen]
    | true => simp [validateAnswerMod, h0, hne, hlen, hprof rfl]
  · intro text pf isProfane hlen
    have hlen' : moderationMaxAnswerLength < text.length := hlen
    by_cases he : text = "" || jsTrim text = "" <;>
      simp [moderatorIsSafe, he, hlen']

/-- A successful join appends exactly one player. -/
theorem joinRoom_success_len {room : Room} {pid nm : String} {r' : Room}
    {e : Option String}
    (h : joinRoom (some room) pid nm =
      { success := true, room := some r', error := e }) :
    r'.players.length = room.players.length + 1 := by
  simp only [joinRoom] at h
  split at h
  · simp_all
  · split at h
    · simp_all
    · split at h
      · simp_all
      · simp only [JoinResult.mk.injEq, Option.some.injEq] at h
        obtain ⟨-, h2, -⟩ := h
        subst h2
        simp

/-- The player count after a sequence of joins is the starting count plus
the number of successful joins. -/
theorem runJoins_len :
    ∀ (reqs : List (String × String)) (room r' : Room),
      (runJoins (some room) reqs).1 = some r' →
      r'.players.length = room.players.length + (runJoins (some room) reqs).2 := by
  intro reqs
  induction reqs with
  | nil =>
    intro room r' h
    simp only [runJoins] at h ⊢
    cases h
    simp
  | cons req rest ih =>
    intro room r' h
    obtain ⟨pid, nm⟩ := req
    rcases hj : joinRoom (some room) pid nm with ⟨s, oroom, oerr⟩
    cases s with
    | false =>
      have hstep : runJoins (some room) ((pid, nm) :: rest) =
          runJoins (some room) rest := by
        simp only [runJoins, hj]
      rw [hstep] at h ⊢
      exact ih room r' h
    | true =>
      cases oroom with
      | none =>
        have hstep : runJoins (some room) ((pid, nm) :: rest) =
            runJoins (some room) rest := by
          simp only [runJoins, hj]
        rw [hstep] at h ⊢
        exact ih room r' h
      | some r2 =>
        have hstep : runJoins (some room) ((pid, nm) :: rest) =
            ((runJoins (some r2) rest).1, (runJoins (some r2) rest).2 + 1) := by
          simp only [runJoins, hj]
        rw [hstep] at h ⊢
        have h2 := ih r2 r' h
        have hlen := joinRoom_success_len hj
        simp only []
        omega

/-- Claim C7: `joinRoom` fails with "Room not found" when the store has no
room, "Game already in progress" outside the lobby phase, "Room is full" at
capacity, and "Name already taken" on an exact name collision; on success it
appends a non-host player at the end of the list, so the player count after
any sequence of joins is the starting count plus the number of successful
joins. -/
theorem c7_joinRoom :
    (∀ pid nm : String, joinRoom none pid nm =
      { success := false, room := none, error := some "Room not found" }) ∧
    (∀ (room : Room) (pid nm : String), room.gameState.phase ≠ .lobby →
      joinRoom (some room) pid nm =
        { success := false, room := none, error := some "Game already in progress" }) ∧
    (∀ (room : Room) (pid nm : String), room.gameState.phase = .lobby →
      room.settings.maxPlayers ≤ room.players.length →
      joinRoom (some room) pid nm =
        { success := false, room := none, error := some "Room is full" }) ∧
    (∀ (room : Room) (pid nm : String), room.gameState.phase = .lobby →
      room.players.length < room.settings.maxPlayers →
      (∃ p ∈ room.players, p.name = nm) →
      joinRoom (some room) pid nm =
        { success := false, room := none, error := some "Name already taken" }) ∧
    (∀ (room : Room) (pid nm : String), room.gameState.phase = .lobby →
      room.players.length < room.settings.maxPlayers →
      (∀ p ∈ room.players, p.name ≠ nm) →
      joinRoom (some room) pid nm =
        { success := true,
          room := some { room with players := room.players ++
            [{ id := pid, name := nm, isHost := false, isReady := false }] },
          error := none }) ∧
    (∀ (room r' : Room) (reqs : List (String × String)),
      (runJoins (some room) reqs).1 = some r' →
      r'.players.length = room.players.length + (runJoins (some room) reqs).2) := by
  refine ⟨?_, ?_, ?_, ?_, ?_, ?_⟩
  · intro pid nm
    rfl
  · intro room pid nm h
    simp [joinRoom, h]
  · intro room pid nm h1 h2
    simp [joinRoom, h1, h2]
  · intro room pid nm h1 h2 h3
    have hany : room.players.any (fun p => p.name = nm) = true := by
      simp only [List.any_eq_true, decide_eq_true_eq]
      exact h3
    simp [joinRoom, h1, Nat.not_le.mpr h2, hany]
  · intro room pid nm h1 h2 h3
    have hany : room.players.any (fun p => p.name = nm) = false := by
      simp only [List.any_eq_false, decide_eq_true_eq]
      exact h3
    simp [joinRoom, h1, Nat.not_le.mpr h2, hany]
  · intro room r' reqs
    exact runJoins_len reqs room r'

/-- Claim C7, witness: joining a fresh name into a two-player lobby room
succeeds and appends the new player. -/
theorem c7_joinRoom_witness :
    joinRoom (some lobbyRoom) "c" "Cy" =
      { success := true,
        room := some { lobbyRoom with players := lobbyRoom.players ++
          [{ id := "c", name := "Cy", isHost := false, isReady := false }] },
        error := none } :=
  c7_joinRoom.2.2.2.2.1 lobbyRoom "c" "Cy" rfl (by decide) (by decide)

/-- Claim C10, witness: the validator theorem applied at concrete inputs —
a whitespace-only answer is rejected as empty, and a padded ordinary answer
is accepted with the trimmed text. -/
theorem c10_validateAnswer_witness :
    validateAnswerMod "  " true =
      { isValid := false, cleanedText := "", error := some "Answer cannot be empty" } ∧
    validateAnswerMod " hello " false =
      { isValid := true, cleanedText := "hello", error := none } := by
  constructor
  · exact c10_validateAnswer.2.1 "  " true (by decide)
  · have h := c10_validateAnswer.2.2.2.1 " hello " false (by decide) (by decide)
      (by intro hc; cases hc)
    simpa using h

/-- Unpack the host invariant: some player is the unique host and carries
the room's `hostId`. -/
theorem hostInvariant_elim {room : Room} (h : hostInvariant room = true) :
    ∃ hp, room.players.filter (fun p => p.isHost) = [hp] ∧ hp.id = room.hostId := by
  unfold hostInvariant at h
  rcases hf : room.players.filter (fun p => p.isHost) with _ | ⟨hp, rest⟩
  · rw [hf] at h
    cases h
  · rcases rest with _ | ⟨p2, rest2⟩
    · rw [hf] at h
      exact ⟨hp, hf, by simpa using h⟩
    · rw [hf] at h
      cases h

/-- Claim C6: under the host invariant, `removePlayer` filters the player
out; it returns `none` exactly when the filtered list is empty; otherwise it
returns a non-empty room — unchanged apart from the filter when a non-host
left, and with the earliest remaining player promoted to host (head of the
filtered list, `isHost := true`, `hostId` rebound) when the host left. -/
theorem c6_removePlayer :
    ∀ (room : Room) (pid : String), hostInvariant room = true →
      ((removePlayer (some room) pid = none ↔
        room.players.filter (fun p => p.id ≠ pid) = []) ∧
      ∀ r', removePlayer (some room) pid = some r' →
        r'.players ≠ [] ∧
        (pid ≠ room.hostId →
          r' = { room with players := room.players.filter (fun p => p.id ≠ pid) }) ∧
        (pid = room.hostId →
          ∃ q rest, room.players.filter (fun p => p.id ≠ pid) = q :: rest ∧
            r'.hostId = q.id ∧ r'.players = { q with isHost := true } :: rest)) := by
  intro room pid hinv
  obtain ⟨hp, hf, hid⟩ := hostInvariant_elim hinv
  have hpfil : hp ∈ room.players.filter (fun p => p.isHost) := by
    rw [hf]
    exact List.mem_singleton_self hp
  have hpmem : hp ∈ room.players := (List.mem_filter.mp hpfil).1
  by_cases hcase : pid = room.hostId
  · rcases hFc : room.players.filter (fun p => p.id ≠ pid) with _ | ⟨q, rest⟩
    · have hrp : removePlayer (some room) pid = none := by
        simp only [removePlayer, if_pos hcase, hFc]
      constructor
      · rw [hrp, hFc]
        simp
      · intro r' hr'
        rw [hrp] at hr'
        cases hr'
    · have hrp : removePlayer (some room) pid =
          some { room with
                 hostId := q.id
                 players := { q with isHost := true } :: rest } := by
        simp only [removePlayer, if_pos hcase, hFc]
      constructor
      · rw [hrp, hFc]
        simp
      · intro r' hr'
        rw [hrp] at hr'
        simp only [Option.some.injEq] at hr'
        subst hr'
        exact ⟨by simp, fun hne => absurd hcase hne, fun _ => ⟨q, rest, hFc, rfl, rfl⟩⟩
  · have hpid : hp.id ≠ pid := by
      rw [hid]
      exact fun hc => hcase hc.symm
    have hhostin : hp ∈ room.players.filter (fun p => p.id ≠ pid) :=
      List.mem_filter.mpr ⟨hpmem, by simpa using hpid⟩
    have hFne : room.players.filter (fun p => p.id ≠ pid) ≠ [] := by
      intro hc
      rw [hc] at hhostin
      cases hhostin
    have hrp : removePlayer (some room) pid =
        some { room with players := room.players.filter (fun p => p.id ≠ pid) } := by
      simp only [removePlayer, if_neg hcase]
    constructor
    · rw [hrp]
      exact ⟨fun hc => Option.noConfusion hc, fun hc => absurd hc hFne⟩
    · intro r' hr'
      rw [hrp] at hr'
      simp only [Option.some.injEq] at hr'
      subst hr'
      exact ⟨by simpa using hFne, fun _ => rfl, fun heq => absurd heq hcase⟩

/-- Claim C6, witness: the host leaving a two-player room leaves a non-empty
room behind (with the remaining player promoted). -/
theorem c6_removePlayer_witness : lobbyRoomSansHost.players ≠ [] :=
  ((c6_removePlayer lobbyRoom "a" (by decide)).2 lobbyRoomSansHost (by decide)).1

/-- The room built by `createRoom` satisfies the host invariant. -/
theorem hostInvariant_createRoom (code hostId hostName : String)
    (settings : RoomSettings) (createdAt : Nat) :
    hostInvariant (createRoomStruct code hostId hostName settings createdAt) = true := by
  simp [hostInvariant, createRoomStruct, List.filter]

/-- Appending a non-host player preserves the host invariant. -/
theorem hostInvariant_append_nonhost {room : Room} {p : Player}
    (hinv : hostInvariant room = true) (hph : p.isHost = false) :
    hostInvariant { room with players := room.players ++ [p] } = true := by
  obtain ⟨hp, hf, hid⟩ := hostInvariant_elim hinv
  have h1 : ({ room with players := room.players ++ [p] } : Room).players.filter
      (fun x => x.isHost) = [hp] := by
    simp [List.filter_append, hf, List.filter, hph]
  unfold hostInvariant
  rw [h1]
  simpa using hid

/-- A successful join has the shape: the stored room with one appended
non-host player. -/
theorem joinRoom_success_shape {s : Option Room} {pid nm : String} {r2 : Room}
    {e : Option String}
    (h : joinRoom s pid nm = { success := true, room := some r2, error := e }) :
    ∃ room, s = some room ∧
      r2 = { room with players := room.players ++
        [{ id := pid, name := nm, isHost := false, isReady := false }] } := by
  cases s with
  | none => cases h
  | some room =>
    refine ⟨room, rfl, ?_⟩
    simp only [joinRoom] at h
    split at h
    · cases h
    · split at h
      · cases h
      · split at h
        · cases h
        · simp only [JoinResult.mk.injEq, Option.some.injEq] at h
          exact h.2.1.symm

/-- `joinStep` preserves the host invariant. -/
theorem hostInvariant_joinStep {s : Option Room} {pid nm : String}
    (hs : ∀ r, s = some r → hostInvariant r = true) :
    ∀ r', joinStep s pid nm = some r' → hostInvariant r' = true := by
  intro r' hr
  unfold joinStep at hr
  rcases hj : joinRoom s pid nm with ⟨su, oroom, oerr⟩
  rw [hj] at hr
  cases su with
  | false => exact hs r' hr
  | true =>
    cases oroom with
    | none => exact hs r' hr
    | some r2 =>
      simp only [Option.some.injEq] at hr
      subst hr
      obtain ⟨room, hsr, hshape⟩ := joinRoom_success_shape hj
      rw [hshape]
      exact hostInvariant_append_nonhost (hs room hsr) rfl

/-- `removePlayer` preserves the host invariant whenever it returns a room. -/
theorem hostInvariant_removePlayer {room : Room} {pid : String} {r' : Room}
    (hinv : hostInvariant room = true)
    (h : removePlayer (some room) pid = some r') :
    hostInvariant r' = true := by
  obtain ⟨hp, hf, hid⟩ := hostInvariant_elim hinv
  by_cases hcase : pid = room.hostId
  · rcases hFc : room.players.filter (fun p => p.id ≠ pid) with _ | ⟨q, rest⟩
    · have hrp : removePlayer (some room) pid = none := by
        simp only [removePlayer, if_pos hcase, hFc]
      rw [hrp] at h
      cases h
    · have hrp : removePlayer (some room) pid =
          some { room with
                 hostId := q.id
                 players := { q with isHost := true } :: rest } := by
        simp only [removePlayer, if_pos hcase, hFc]
      rw [hrp] at h
      simp only [Option.some.injEq] at h
      subst h
      have hrest : ∀ x ∈ rest, x.isHost = false := by
        intro x hx
        by_contra hxh
        have hxh' : x.isHost = true := by
          cases hb : x.isHost
          · exact absurd hb hxh
          · rfl
        have hxmem : x ∈ room.players.filter (fun p => p.id ≠ pid) := by
          rw [hFc]
          exact List.mem_cons_of_mem q hx
        have hxpl : x ∈ room.players := (List.mem_filter.mp hxmem).1
        have hxid : x.id ≠ pid := by simpa using (List.mem_filter.mp hxmem).2
        have hxf : x ∈ room.players.filter (fun p => p.isHost) :=
          List.mem_filter.mpr ⟨hxpl, by simpa using hxh'⟩
        rw [hf] at hxf
        have hxhp : x = hp := by simpa using hxf
        subst hxhp
        rw [hid] at hxid
        exact hxid hcase.symm
      have hfr : rest.filter (fun p => p.isHost) = [] := by
        rw [List.filter_eq_nil_iff]
        intro x hx
        simp [hrest x hx]
      unfold hostInvariant
      simp [List.filter_cons, hfr]
  · have hrp : removePlayer (some room) pid =
        some { room with players := room.players.filter (fun p => p.id ≠ pid) } := by
      simp only [removePlayer, if_neg hcase]
    rw [hrp] at h
    simp only [Option.some.injEq] at h
    subst h
    have hpid : hp.id ≠ pid := by
      rw [hid]
      exact fun hc => hcase hc.symm
    have hcomm : (room.players.filter (fun p => p.id ≠ pid)).filter (fun p => p.isHost)
        = [hp] := by
      rw [List.filter_filter]
      have : (room.players.filter (fun p => p.isHost)).filter (fun p => p.id ≠ pid)
          = [hp] := by
        rw [hf, List.filter]
        simp [hpid]
      rw [List.filter_filter] at this
      rw [← this]
      congr 1
      funext a
      rw [Bool.and_comm]
    unfold hostInvariant
    rw [show ({ room with players := room.players.filter (fun p => p.id ≠ pid) } :
      Room).players = room.players.filter (fun p => p.id ≠ pid) from rfl]
    rw [hcomm]
    simpa using hid

/-- The host invariant is maintained by any sequence of membership
operations. -/
theorem hostInvariant_runOps :
    ∀ (ops : List Op) (s : Option Room),
      (∀ r, s = some r → hostInvariant r = true) →
      ∀ r', runOps s ops = some r' → hostInvariant r' = true := by
  intro ops
  induction ops with
  | nil =>
    intro s hs r' h
    exact hs r' h
  | cons op rest ih =>
    intro s hs r' h
    rw [runOps, List.foldl_cons] at h
    refine ih (applyOp s op) ?_ r' h
    intro r hr
    cases op with
    | join pid nm => exact hostInvariant_joinStep hs r hr
    | remove pid =>
      cases s with
      | none => cases hr
      | some room => exact hostInvariant_removePlayer (hs room rfl) hr

/-- Claim C1: starting from a room created by `createRoom`, after any
sequence of `joinRoom` / `removePlayer` operations that leaves the room
alive, whenever the players list is non-empty exactly one player has
`isHost = true`, and that player's id equals the room's `hostId`. -/
theorem c1_host_invariant :
    ∀ (code hostId hostName : String) (settings : RoomSettings) (createdAt : Nat)
      (ops : List Op) (r' : Room),
      runOps (some (createRoomStruct code hostId hostName settings createdAt)) ops =
        some r' →
      r'.players ≠ [] →
      (r'.players.filter (fun p => p.isHost)).length = 1 ∧
        ∀ p ∈ r'.players.filter (fun p => p.isHost), p.id = r'.hostId := by
  intro code hostId hostName settings createdAt ops r' hrun hne
  have hinv := hostInvariant_runOps ops
    (some (createRoomStruct code hostId hostName settings createdAt))
    (fun r hr => by
      injection hr with h2
      rw [← h2]
      exact hostInvariant_createRoom code hostId hostName settings createdAt)
    r' hrun
  obtain ⟨hp, hf, hid⟩ := hostInvariant_elim hinv
  rw [hf]
  exact ⟨rfl, by simpa using hid⟩

/-- Claim C1, witness: two joins then the host's departure, on a concrete
room — the surviving room still has exactly one host carrying `hostId`. -/
theorem c1_host_invariant_witness :
    (c1Final.players.filter (fun p => p.isHost)).length = 1 ∧
      ∀ p ∈ c1Final.players.filter (fun p => p.isHost), p.id = c1Final.hostId :=
  c1_host_invariant "ABC123" "a" "Amy" sampleSettings 0 c1Ops c1Final
    (by decide) (by decide)

/-- `find?` over `updateFirst`: updating the first id-match in place moves
under an id-preserving update. -/
theorem find?_updateFirst (l : List Player) (pid : String) (f : Player → Player)
    (hfid : ∀ x, (f x).id = x.id) :
    ∀ {p : Player}, l.find? (fun x => x.id = pid) = some p →
      (updateFirst l pid f).find? (fun x => x.id = pid) = some (f p) := by
  induction l with
  | nil =>
    intro p h
    cases h
  | cons a rest ih =>
    intro p h
    by_cases ha : a.id = pid
    · have hpa : p = a := by
        rw [List.find?_cons_of_pos _ (by simpa using ha)] at h
        exact ((Option.some.injEq _ _).mp h).symm
      rw [hpa]
      simp only [updateFirst, if_pos ha]
      rw [List.find?_cons_of_pos _ (by simp [hfid a, ha])]
    · rw [List.find?_cons_of_neg _ (by simpa using ha)] at h
      simp only [updateFirst, if_neg ha]
      rw [List.find?_cons_of_neg _ (by simpa using ha)]
      exact ih h

/-- Claim C2 (amended): for a playing-phase room and a player holding an
assigned question who has not yet answered, a first `submitAnswer` with a
valid answer succeeds; a second call by the same player fails — with
"Already answered" when the room is still in the playing phase, and with
"Invalid game state" when the first submission completed the round and moved
the phase to reveal — and any unsuccessful `submitAnswer` leaves the store
unchanged, so the state after both calls equals the state after the first
alone. -/
theorem c2_submitAnswer :
    (∀ (room : Room) (pid ans : String) (p : Player) (q : QuestionType),
      room.gameState.phase = .playing →
      room.players.find? (fun x => x.id = pid) = some p →
      p.assignedQuestion = some q →
      p.hasAnswered = false →
      (validateAnswer ans).isValid = true →
      (submitAnswer (some room) pid ans).success = true ∧
      ∃ r1, (submitAnswer (some room) pid ans).room = some r1 ∧
        (submitAnswer (some r1) pid ans).success = false ∧
        (submitAnswer (some r1) pid ans).error =
          some (if r1.gameState.phase = .playing then "Already answered"
                else "Invalid game state") ∧
        submitStep (some r1) pid ans = some r1) ∧
    (∀ (stored : Option Room) (pid ans : String),
      (submitAnswer stored pid ans).success = false →
      submitStep stored pid ans = stored) := by
  constructor
  · intro room pid ans p q hph hfind hq hha hv
    have hnp : ¬ room.gameState.phase ≠ GamePhase.playing := not_not_intro hph
    have hha' : ¬ (p.hasAnswered = true) := by
      rw [hha]
      exact Bool.false_ne_true
    have hv' : (!(validateAnswer ans).isValid) = false := by rw [hv]; rfl
    have hfind2 := find?_updateFirst room.players pid
      (fun x => { x with hasAnswered := true }) (fun x => rfl) hfind
    by_cases hall : (QUESTIONS.all fun q' =>
        ((room.gameState.answers.set q
          { playerId := p.id, answer := (validateAnswer ans).cleanedText }).get
          q').isSome) = true
    · simp only [submitAnswer, if_neg hnp, hfind, hq, if_neg hha', hv',
        Bool.false_eq_true, if_false, hall, if_true]
      constructor
      · trivial
      exact ⟨_, rfl, by simp [submitAnswer, hall], by simp [submitAnswer, hall],
        by simp [submitStep, submitAnswer, hall]⟩
    · simp only [submitAnswer, if_neg hnp, hfind, hq, if_neg hha', hv',
        Bool.false_eq_true, if_false, hall, if_true]
      constructor
      · trivial
      exact ⟨_, rfl, by simp [submitAnswer, hall, hph, hfind2, hq],
        by simp [submitAnswer, hall, hph, hfind2, hq],
        by simp [submitStep, submitAnswer, hall, hph, hfind2, hq]⟩
  · intro stored pid ans h
    unfold submitStep
    rcases hres : submitAnswer stored pid ans with ⟨su, oroom, oerr, osr⟩
    rw [hres] at h
    cases su with
    | false =>
      cases oroom <;> rfl
    | true => cases h

/-- Claim C2, counterexample to the claim as stated: when the first
submission is the fourth answer the room moves to reveal, so the second
identical call fails with "Invalid game state", not "Already answered". -/
theorem c2_counterexample :
    (submitAnswer (some lastAnswerRoom) "d" "slowly").success = true ∧
    (submitAnswer (submitStep (some lastAnswerRoom) "d" "slowly") "d" "slowly").error =
      some "Invalid game state" ∧
    (submitAnswer (submitStep (some lastAnswerRoom) "d" "slowly") "d" "slowly").error ≠
      some "Already answered" := by
  refine ⟨by decide, by decide, by decide⟩

/-- Claim C2, witness: the amended theorem applied to a fresh playing-phase
room — the first submission by player `a` succeeds. -/
theorem c2_submitAnswer_witness :
    (submitAnswer (some freshPlayRoom) "a" "Alice").success = true :=
  (c2_submitAnswer.1 freshPlayRoom "a" "Alice" freshPlayRoomP .who (by decide)
    (by decide) (by decide) (by decide) (by decide)).1

/-- Looking up the key just set. -/
theorem alookup_assocSet_self (m : List (String × QuestionType)) (k : String)
    (v : QuestionType) : alookup k (assocSet m k v) = some v := by
  induction m with
  | nil => simp [assocSet, alookup]
  | cons kv rest ih =>
    obtain ⟨k', v'⟩ := kv
    by_cases hk : k' = k
    · simp [assocSet, hk, alookup]
    · simp [assocSet, hk, alookup, ih]

/-- Setting one key leaves other lookups unchanged. -/
theorem alookup_assocSet_ne (m : List (String × QuestionType)) (j k : String)
    (v : QuestionType) (h : j ≠ k) : alookup j (assocSet m k v) = alookup j m := by
  induction m with
  | nil => simp [assocSet, alookup, Ne.symm h]
  | cons kv rest ih =>
    obtain ⟨k', v'⟩ := kv
    by_cases hk : k' = k
    · subst hk
      simp [assocSet, alookup, Ne.symm h]
    · simp [assocSet, hk, alookup, ih]

/-- Three distinct members force a list length of at least three. -/
theorem three_mem_length {a b c : QuestionType} {l : List QuestionType}
    (hab : a ≠ b) (hac : a ≠ c) (hbc : b ≠ c)
    (ha : a ∈ l) (hb : b ∈ l) (hc : c ∈ l) : 3 ≤ l.length := by
  have hnd : ([a, b, c] : List QuestionType).Nodup := by simp [hab, hac, hbc]
  have hsub : ([a, b, c] : List QuestionType) ⊆ l := by
    intro x hx
    simp only [List.mem_cons, List.not_mem_nil, or_false] at hx
    rcases hx with rfl | rfl | rfl <;> assumption
  simpa using (List.subperm_of_subset hnd hsub).length_le

/-- All four questions as members force a length of at least four. -/
theorem four_mem_length {l : List QuestionType}
    (h : ∀ q, q ∈ l) : 4 ≤ l.length := by
  have hnd : (QUESTIONS : List QuestionType).Nodup := by decide
  have hsub : QUESTIONS ⊆ l := fun x _ => h x
  simpa [QUESTIONS] using (List.subperm_of_subset hnd hsub).length_le

/-- With at most two questions used, the first greedy pass always finds a
question that is unused and differs from the previous one. -/
theorem greedyPick_lt3 (used : List QuestionType) (prev : Option QuestionType)
    (h : used.length ≤ 2) :
    ∃ q, greedyPick used prev = some q ∧ q ∉ used ∧ some q ≠ prev := by
  have hex : ∃ x, x ∈ QUESTIONS ∧ (decide (¬ x ∈ used ∧ some x ≠ prev)) = true := by
    by_contra hc
    push_neg at hc
    have hforce : ∀ q : QuestionType, q ∈ used ∨ some q = prev := by
      intro q
      have hq := hc q (by cases q <;> decide)
      by_contra hq2
      push_neg at hq2
      exact hq (decide_eq_true ⟨hq2.1, hq2.2⟩)
    have hmem : ∀ q : QuestionType, some q ≠ prev → q ∈ used := by
      intro q hq
      rcases hforce q with hm | hp
      · exact hm
      · exact absurd hp hq
    rcases hprev : prev with _ | pv
    · have h4 : ∀ q : QuestionType, q ∈ used := fun q => hmem q (by simp [hprev])
      have := four_mem_length h4
      omega
    · subst hprev
      have h3 : 3 ≤ used.length := by
        cases pv
        · exact three_mem_length (by decide) (by decide) (by decide)
            (hmem .withWhom (by simp)) (hmem .whereQ (by simp)) (hmem .how (by simp))
        · exact three_mem_length (by decide) (by decide) (by decide)
            (hmem .who (by simp)) (hmem .whereQ (by simp)) (hmem .how (by simp))
        · exact three_mem_length (by decide) (by decide) (by decide)
            (hmem .who (by simp)) (hmem .withWhom (by simp)) (hmem .how (by simp))
        · exact three_mem_length (by decide) (by decide) (by decide)
            (hmem .who (by simp)) (hmem .withWhom (by simp)) (hmem .whereQ (by simp))
      omega
  have hsome : (QUESTIONS.find? (fun q => ¬ q ∈ used ∧ some q ≠ prev)).isSome := by
    rw [List.find?_isSome]
    exact hex
  obtain ⟨q, hq⟩ := Option.isSome_iff_exists.mp hsome
  have hp := List.find?_some hq
  rw [decide_eq_true_eq] at hp
  refine ⟨q, ?_, hp.1, hp.2⟩
  unfold greedyPick
  rw [hq]

/-- With at most three questions used, the greedy pick (first pass or
fallback) always yields an unused question. -/
theorem greedyPick_lt4 (used : List QuestionType) (prev : Option QuestionType)
    (h : used.length ≤ 3) :
    ∃ q, greedyPick used prev = some q ∧ q ∉ used := by
  have hex : ∃ q : QuestionType, q ∉ used := by
    by_contra hc
    push_neg at hc
    have := four_mem_length hc
    omega
  obtain ⟨q0, hq0⟩ := hex
  unfold greedyPick
  cases hfind : QUESTIONS.find? (fun q => ¬ q ∈ used ∧ some q ≠ prev) with
  | some q =>
    have hp := List.find?_some hfind
    rw [decide_eq_true_eq] at hp
    exact ⟨q, rfl, hp.1⟩
  | none =>
    have hsome : (QUESTIONS.find? (fun q => ¬ q ∈ used)).isSome := by
      rw [List.find?_isSome]
      exact ⟨q0, by cases q0 <;> decide, by simpa using hq0⟩
    obtain ⟨q', hq'⟩ := Option.isSome_iff_exists.mp hsome
    have hp := List.find?_some hq'
    rw [decide_eq_true_eq] at hp
    refine ⟨q', ?_, hp⟩
    exact hq'

/-- The greedy loop never writes a key that is not among the shuffled
players' ids. -/
theorem greedyLoop_alookup_notmem (pm : List (String × QuestionType)) :
    ∀ (sh : List Player) (asg : List (String × QuestionType))
      (used : List QuestionType) (j : String), j ∉ sh.map Player.id →
      alookup j (greedyLoop pm sh asg used).1 = alookup j asg := by
  intro sh
  induction sh with
  | nil =>
    intro asg used j _
    rfl
  | cons a rest ih =>
    intro asg used j hj
    simp only [List.map_cons, List.mem_cons, not_or] at hj
    obtain ⟨hj1, hj2⟩ := hj
    cases hpick : greedyPick used (alookup a.id pm) with
    | some q =>
      by_cases h4 : 4 ≤ (used ++ [q]).length
      · simp only [greedyLoop, hpick, if_pos h4]
        exact alookup_assocSet_ne asg j a.id q hj1
      · simp only [greedyLoop, hpick, if_neg h4]
        rw [ih _ _ j hj2]
        exact alookup_assocSet_ne asg j a.id q hj1
    | none =>
      by_cases h4 : 4 ≤ used.length
      · simp only [greedyLoop, hpick, if_pos h4]
      · simp only [greedyLoop, hpick, if_neg h4]
        exact ih _ _ j hj2

/-- With at most three players (distinct ids), the greedy loop assigns every
player a question that is unused and differs from their entry in the
previous-question map — the fallback path never runs. -/
theorem greedyLoop_le3 (pm : List (String × QuestionType)) :
    ∀ (sh : List Player) (asg : List (String × QuestionType))
      (used : List QuestionType),
      (sh.map Player.id).Nodup →
      used.length + sh.length ≤ 3 →
      ∀ p ∈ sh, ∃ q, alookup p.id (greedyLoop pm sh asg used).1 = some q ∧
        q ∉ used ∧ some q ≠ alookup p.id pm := by
  intro sh
  induction sh with
  | nil =>
    intro asg used _ _ p hp
    cases hp
  | cons a rest ih =>
    intro asg used hnd hlen p hp
    have hlen2 : used.length ≤ 2 := by
      simp only [List.length_cons] at hlen
      omega
    obtain ⟨q, hpick, hqnu, hqnp⟩ := greedyPick_lt3 used (alookup a.id pm) hlen2
    have h4 : ¬ 4 ≤ (used ++ [q]).length := by
      simp only [List.length_append, List.length_cons, List.length_nil]
      omega
    simp only [List.map_cons, List.nodup_cons] at hnd
    obtain ⟨hna, hndr⟩ := hnd
    rcases List.mem_cons.mp hp with rfl | hpr
    · refine ⟨q, ?_, hqnu, hqnp⟩
      simp only [greedyLoop, hpick, if_neg h4]
      rw [greedyLoop_alookup_notmem pm rest _ _ p.id hna]
      exact alookup_assocSet_self asg p.id q
    · have hlen' : (used ++ [q]).length + rest.length ≤ 3 := by
        simp only [List.length_append, List.length_cons, List.length_nil] at hlen ⊢
        omega
      obtain ⟨q', hq', hq'nu, hq'np⟩ :=
        ih (assocSet asg a.id q) (used ++ [q]) hndr hlen' p hpr
      refine ⟨q', ?_, fun hm => hq'nu (List.mem_append_left _ hm), hq'np⟩
      simp only [greedyLoop, hpick, if_neg h4]
      exact hq'

/-- With at most four players (distinct ids), the greedy loop assigns every
player some question. -/
theorem greedyLoop_le4 (pm : List (String × QuestionType)) :
    ∀ (sh : List Player) (asg : List (String × QuestionType))
      (used : List QuestionType),
      (sh.map Player.id).Nodup →
      used.length + sh.length ≤ 4 →
      ∀ p ∈ sh, ∃ q, alookup p.id (greedyLoop pm sh asg used).1 = some q := by
  intro sh
  induction sh with
  | nil =>
    intro asg used _ _ p hp
    cases hp
  | cons a rest ih =>
    intro asg used hnd hlen p hp
    have hlen3 : used.length ≤ 3 := by
      simp only [List.length_cons] at hlen
      omega
    obtain ⟨q, hpick, hqnu⟩ := greedyPick_lt4 used (alookup a.id pm) hlen3
    simp only [List.map_cons, List.nodup_cons] at hnd
    obtain ⟨hna, hndr⟩ := hnd
    by_cases h4 : 4 ≤ (used ++ [q]).length
    · have hrest : rest = [] := by
        rw [← List.length_eq_zero]
        simp only [List.length_append, List.length_cons, List.length_nil] at hlen h4
        omega
      subst hrest
      rcases List.mem_cons.mp hp with rfl | hpr
      · refine ⟨q, ?_⟩
        simp only [greedyLoop, hpick, if_pos h4]
        exact alookup_assocSet_self asg p.id q
      · cases hpr
    · rcases List.mem_cons.mp hp with rfl | hpr
      · refine ⟨q, ?_⟩
        simp only [greedyLoop, hpick, if_neg h4]
        rw [greedyLoop_alookup_notmem pm rest _ _ p.id hna]
        exact alookup_assocSet_self asg p.id q
      · have hlen' : (used ++ [q]).length + rest.length ≤ 4 := by
          simp only [List.length_append, List.length_cons, List.length_nil] at hlen ⊢
          omega
        obtain ⟨q', hq'⟩ := ih (assocSet asg a.id q) (used ++ [q]) hndr hlen' p hpr
        refine ⟨q', ?_⟩
        simp only [greedyLoop, hpick, if_neg h4]
        exact hq'

/-- The previous-question map never binds an id outside the player list. -/
theorem alookup_foldl_prevStep (l : List Player) :
    ∀ (m : List (String × QuestionType)) (j : String),
      j ∉ l.map Player.id →
      alookup j (l.foldl prevStep m) = alookup j m := by
  induction l with
  | nil =>
    intro m j _
    rfl
  | cons a rest ih =>
    intro m j hj
    simp only [List.map_cons, List.mem_cons, not_or] at hj
    obtain ⟨hj1, hj2⟩ := hj
    rw [List.foldl_cons, ih _ j hj2]
    unfold prevStep
    cases a.previousQuestion with
    | none => rfl
    | some q => exact alookup_assocSet_ne m j a.id q hj1

/-- For distinct ids, the previous-question map binds each player's id to
exactly their `previousQuestion` field. -/
theorem alookup_foldl_prevStep_mem (l : List Player) :
    ∀ (m : List (String × QuestionType)),
      (l.map Player.id).Nodup →
      ∀ p ∈ l, alookup p.id m = none →
      alookup p.id (l.foldl prevStep m) = p.previousQuestion := by
  induction l with
  | nil =>
    intro m _ p hp
    cases hp
  | cons a rest ih =>
    intro m hnd p hp hm
    simp only [List.map_cons, List.nodup_cons] at hnd
    obtain ⟨hna, hndr⟩ := hnd
    rw [List.foldl_cons]
    rcases List.mem_cons.mp hp with rfl | hpr
    · rw [alookup_foldl_prevStep rest _ p.id hna]
      unfold prevStep
      cases hq : p.previousQuestion with
      | none => exact hm
      | some q => exact alookup_assocSet_self m p.id q
    · have hne : p.id ≠ a.id := by
        intro hc
        exact hna (hc ▸ List.mem_map_of_mem Player.id hpr)
      refine ih (prevStep m a) hndr p hpr ?_
      unfold prevStep
      cases a.previousQuestion with
      | none => exact hm
      | some q =>
        rw [alookup_assocSet_ne m p.id a.id q hne]
        exact hm

/-- Lookup in `buildPrevMap` is the player's `previousQuestion`, given
distinct ids. -/
theorem alookup_buildPrevMap (players : List Player)
    (hnd : (players.map Player.id).Nodup) (p : Player) (hp : p ∈ players) :
    alookup p.id (buildPrevMap players) = p.previousQuestion :=
  alookup_foldl_prevStep_mem players [] hnd p hp rfl

/-- Claim C4 (amended): the greedy assignment avoids each player's
`previousQuestion` *field* — which at call time holds the question from two
rounds earlier, not the immediately preceding round (see the
counterexample) — and for at most three players with distinct ids this
avoidance always succeeds for every shuffle: each player is assigned a
question different from that field, so the fallback path never runs.  (With
exactly four players even this weaker avoidance can be forced into the
fallback.) -/
theorem c4_repeat_avoidance :
    ∀ (players shuffled : List Player),
      players.length ≤ 3 →
      (players.map Player.id).Nodup →
      shuffled.Perm players →
      ∀ (i : Nat) (p : Player), players.get? i = some p →
        ∃ q, (assignQuestionsWithShuffle players shuffled).get? i =
            some { p with
                   previousQuestion := p.assignedQuestion
                   assignedQuestion := some q
                   hasAnswered := false } ∧
          some q ≠ p.previousQuestion := by
  intro players shuffled hlen hnd hperm i p hget
  have hmem : p ∈ players := List.get?_mem hget
  have hmem' : p ∈ shuffled := hperm.mem_iff.mpr hmem
  have hndsh : (shuffled.map Player.id).Nodup :=
    ((hperm.map Player.id).nodup_iff).mpr hnd
  have hlensh : shuffled.length ≤ 3 := by
    rw [hperm.length_eq]
    exact hlen
  obtain ⟨q, hq, _, hqnp⟩ := greedyLoop_le3 (buildPrevMap players) shuffled [] []
    hndsh (by simpa using hlensh) p hmem'
  rw [alookup_buildPrevMap players hnd p hmem] at hqnp
  refine ⟨q, ?_, hqnp⟩
  unfold assignQuestionsWithShuffle applyAssignments
  rw [List.get?_map, hget]
  simp [hq]

/-- Claim C4, counterexample to the claim as stated: four fresh players,
identity shuffles.  Round 1 assigns player `a` the `who` question; because
the avoidance map is built from `previousQuestion` (still `none` after one
round — it lags one round behind), round 2 assigns player `a` the `who`
question again: a repeat across two consecutive rounds for a 4-player room,
which the claim says never happens. -/
theorem c4_counterexample :
    ((assignQuestionsWithShuffle c4Players c4Players).get? 0).map
        (fun p => (p.id, p.assignedQuestion)) = some ("a", some .who) ∧
    ((assignQuestionsWithShuffle c4Round1 c4Round1).get? 0).map
        (fun p => (p.id, p.assignedQuestion)) = some ("a", some .who) := by
  refine ⟨by decide, by decide⟩

/-- Claim C4, witness: three players carrying previous questions, reversed
shuffle — the head player receives a question distinct from their
previous-question field. -/
theorem c4_repeat_avoidance_witness :
    ∃ q, (assignQuestionsWithShuffle threePrev threePrevRev).get? 0 =
        some { threePrevHead with
               previousQuestion := threePrevHead.assignedQuestion
               assignedQuestion := some q
               hasAnswered := false } ∧
      some q ≠ threePrevHead.previousQuestion :=
  c4_repeat_avoidance threePrev threePrevRev (by decide) (by decide) (by decide)
    0 threePrevHead (by decide)

/-- The rotation selection is exactly the players at the wrapped active
positions. -/
theorem selectRotation_eq (players : List Player) (ri : Nat) :
    selectRotation players ri =
      (activeIdxs players.length ri).filterMap (fun j => players.get? j) := by
  unfold selectRotation activeIdxs
  rw [List.filterMap_map]
  rfl

/-- Every active position is a valid index. -/
theorem activeIdxs_lt (n ri : Nat) (hn : 0 < n) : ∀ j ∈ activeIdxs n ri, j < n := by
  intro j hj
  unfold activeIdxs at hj
  simp only [List.mem_map, List.mem_range] at hj
  obtain ⟨i, _, rfl⟩ := hj
  exact Nat.mod_lt _ hn

/-- The four active positions are pairwise distinct (player count at least
4). -/
theorem activeIdxs_nodup (n ri : Nat) (hn : 4 ≤ n) : (activeIdxs n ri).Nodup := by
  unfold activeIdxs
  refine List.Nodup.map_on ?_ (List.nodup_range _)
  intro i hi i' hi' heq
  simp only [List.mem_range] at hi hi'
  have hin : i < n := lt_of_lt_of_le hi (min_le_right 4 n)
  have hin' : i' < n := lt_of_lt_of_le hi' (min_le_right 4 n)
  have hmod : i % n = i' % n :=
    Nat.ModEq.add_left_cancel' ((ri % ((n + 3) / 4)) * 4) heq
  rwa [Nat.mod_eq_of_lt hin, Nat.mod_eq_of_lt hin'] at hmod

/-- Indices with equal player ids coincide, under distinct ids. -/
theorem ids_get?_inj (players : List Player)
    (hnd : (players.map Player.id).Nodup) {i j : Nat} {p p' : Player}
    (hi : players.get? i = some p) (hj : players.get? j = some p')
    (heq : p.id = p'.id) : i = j := by
  have hmi : (players.map Player.id).get? i = some p.id := by
    rw [List.get?_map, hi]
    rfl
  have hmj : (players.map Player.id).get? j = some p'.id := by
    rw [List.get?_map, hj]
    rfl
  have hlen : i < players.length := by
    by_contra hc
    push_neg at hc
    rw [List.get?_eq_none.mpr hc] at hi
    cases hi
  refine List.getElem?_inj ?_ hnd ?_
  · simpa using hlen
  · rw [← List.get?_eq_getElem?, ← List.get?_eq_getElem?, hmi, hmj, heq]

/-- The selected players have pairwise-distinct ids. -/
theorem selectRotation_ids_nodup (players : List Player) (ri : Nat)
    (hn : 4 ≤ players.length) (hnd : (players.map Player.id).Nodup) :
    ((selectRotation players ri).map Player.id).Nodup := by
  rw [selectRotation_eq, List.map_filterMap]
  refine List.Nodup.filterMap ?_ (activeIdxs_nodup _ _ hn)
  intro a a' b hb hb'
  simp only [Option.mem_def, Option.map_eq_some'] at hb hb'
  obtain ⟨pa, hpa, hpaid⟩ := hb
  obtain ⟨pa', hpa', hpaid'⟩ := hb'
  exact ids_get?_inj players hnd hpa hpa' (hpaid.trans hpaid'.symm)

/-- A player at an active position belongs to the rotation selection. -/
theorem mem_selectRotation_of_active {players : List Player} {ri i : Nat}
    {p : Player} (hi : i ∈ activeIdxs players.length ri)
    (hget : players.get? i = some p) : p ∈ selectRotation players ri := by
  rw [selectRotation_eq]
  exact List.mem_filterMap.mpr ⟨i, hi, hget⟩

/-- Claim C5 (amended): with five or more players (distinct ids), the active
group of a round is the four *consecutive* positions starting at
`4 * (rotationIndex mod ceil(n/4))`, wrapping around modulo `n` — not a
disjoint cohort (see counterexample).  Every player at an active position
receives a question, every other player ends the assignment with
`assignedQuestion = none`, and `rotationIndex` is incremented by exactly one
by `startGame` and `startNewRound` of the rotation variant. -/
theorem c5_rotation :
    (∀ (players : List Player) (ri : Nat) (shuffled : List Player),
      5 ≤ players.length →
      (players.map Player.id).Nodup →
      shuffled.Perm (selectRotation players ri) →
      ∀ (i : Nat) (p : Player), players.get? i = some p →
        (i ∈ activeIdxs players.length ri →
          ∃ q, (assignQuestionsWithRotation players ri shuffled).get? i =
            some { p with
                   previousQuestion := p.assignedQuestion
                   assignedQuestion := some q
                   hasAnswered := false }) ∧
        (i ∉ activeIdxs players.length ri →
          (assignQuestionsWithRotation players ri shuffled).get? i =
            some { p with
                   previousQuestion := p.assignedQuestion
                   assignedQuestion := none
                   hasAnswered := false })) ∧
    (∀ (room : Room) (sh : List Player) (r' : Room),
      startGameRot (some room) sh = .okRes r' →
      r'.gameState.rotationIndex = room.gameState.rotationIndex + 1) ∧
    (∀ (room : Room) (sh : List Player) (r' : Room),
      startNewRoundRot (some room) sh = .okRes r' →
      r'.gameState.rotationIndex = room.gameState.rotationIndex + 1) := by
  refine ⟨?_, ?_, ?_⟩
  · intro players ri shuffled hn hnd hperm i p hget
    have h4 : 4 ≤ players.length := by omega
    have hids : ((selectRotation players ri).map Player.id).Nodup :=
      selectRotation_ids_nodup players ri h4 hnd
    have hndsh : (shuffled.map Player.id).Nodup :=
      ((hperm.map Player.id).nodup_iff).mpr hids
    have hlensel : (selectRotation players ri).length ≤ 4 := by
      rw [selectRotation_eq]
      calc ((activeIdxs players.length ri).filterMap (fun j => players.get? j)).length
          ≤ (activeIdxs players.length ri).length :=
            List.length_filterMap_le _ _
        _ ≤ 4 := by
            unfold activeIdxs
            simp only [List.length_map, List.length_range]
            omega
    have hlensh : shuffled.length ≤ 4 := by
      rw [hperm.length_eq]
      exact hlensel
    constructor
    · intro hi
      have hpm : p ∈ selectRotation players ri := mem_selectRotation_of_active hi hget
      have hpm' : p ∈ shuffled := hperm.mem_iff.mpr hpm
      obtain ⟨q, hq⟩ := greedyLoop_le4 (buildPrevMap (selectRotation players ri))
        shuffled [] [] hndsh (by simpa using hlensh) p hpm'
      refine ⟨q, ?_⟩
      unfold assignQuestionsWithRotation applyAssignments
      rw [List.get?_map, hget]
      simp [hq]
    · intro hi
      have hnotin : p.id ∉ shuffled.map Player.id := by
        intro hc
        rw [(hperm.map Player.id).mem_iff] at hc
        obtain ⟨p', hp'mem, hp'id⟩ := List.mem_map.mp hc
        rw [selectRotation_eq] at hp'mem
        obtain ⟨j, hj, hjget⟩ := List.mem_filterMap.mp hp'mem
        have hji : j = i := ids_get?_inj players hnd hjget hget hp'id
        rw [hji] at hj
        exact hi hj
      have hq := greedyLoop_alookup_notmem (buildPrevMap (selectRotation players ri))
        shuffled [] [] p.id hnotin
      unfold assignQuestionsWithRotation applyAssignments
      rw [List.get?_map, hget]
      simp [hq, alookup]
  · intro room sh r' h
    exact (startGameRot_ok h).2.2
  · intro room sh r' h
    exact (startNewRoundRot_ok h).2.2

/-- Claim C5, counterexample to the claim as stated: five players at
rotation index 1.  Under the claimed disjoint-cohort partition the active
cohort is cohort 1 (position 4 only), but the code wraps around and also
assigns questions to positions 0-2 — position 0 (player `a`, cohort 0)
receives a question. -/
theorem c5_counterexample :
    ¬ (∀ (i : Nat) (p' : Player),
        (assignQuestionsWithRotation c5Players 1 c5Shuffled).get? i = some p' →
        p'.assignedQuestion.isSome = true →
        specCohortOf i = specActiveCohort c5Players.length 1) := by
  intro h
  have h0 := h 0
    { mkP "a" "Amy" with
      previousQuestion := none
      assignedQuestion := some .withWhom
      hasAnswered := false } (by decide) (by decide)
  exact absurd h0 (by decide)

/-- Claim C5, witness: eight players (disjoint cohorts), rotation index 0 —
the player at active position 0 receives a question. -/
theorem c5_rotation_witness :
    ∃ q, (assignQuestionsWithRotation eightPlayers 0 eightShuffled).get? 0 =
        some { mkP "a" "Amy" with
               previousQuestion := (mkP "a" "Amy").assignedQuestion
               assignedQuestion := some q
               hasAnswered := false } :=
  ((c5_rotation.1 eightPlayers 0 eightShuffled (by decide) (by decide)
    (by decide) 0 (mkP "a" "Amy") (by decide)).1 (by decide))

end BldSty
